import Mathlib

/-!
Verification of the Arch DDM (displacement discontinuity method) engine
against its natural-language specification.

The repository ships only TypeScript declaration files and documentation
for the Arch C++ engine: every method body is a stub.  Consequently the
behavioural definitions below are modelled from the specification and
from the doc comments of the declaration files (`surface.ts`,
`solver.d.ts`, the constraint and solver declaration parts), which are
the only sources of behaviour this repository contains.  Default
argument values that do appear literally in the TypeScript source
(e.g. `delta: number = 1e-7` in `Surface.displPlus`) are embedded as
rational constants.

All arithmetic is over `ℚ`: the engine works in double precision, and
the algebraic identities claimed by the spec (permutation filters,
Coulomb projection, seismic moment, solver state machine, stopping
rules, D± decomposition up to a Lipschitz tolerance) are exact rational
statements.
-/

/-- A 3-vector of rationals, standing for the `Vector = [number,number,number]`
type of the source (`types.ts`). -/
structure Vec3 where
  x : ℚ
  y : ℚ
  z : ℚ
deriving DecidableEq, Repr

/-- Componentwise addition of 3-vectors. -/
def vadd (a b : Vec3) : Vec3 := ⟨a.x + b.x, a.y + b.y, a.z + b.z⟩

/-- Componentwise subtraction of 3-vectors. -/
def vsub (a b : Vec3) : Vec3 := ⟨a.x - b.x, a.y - b.y, a.z - b.z⟩

/-- Scalar multiplication of a 3-vector. -/
def vsmul (c : ℚ) (a : Vec3) : Vec3 := ⟨c * a.x, c * a.y, c * a.z⟩

/-- The zero 3-vector. -/
def vzero : Vec3 := ⟨0, 0, 0⟩

/-- Every component of `v` is bounded by `B` in absolute value. -/
def compAbsLe (v : Vec3) (B : ℚ) : Prop :=
  |v.x| ≤ B ∧ |v.y| ≤ B ∧ |v.z| ≤ B

instance (v : Vec3) (B : ℚ) : Decidable (compAbsLe v B) := by
  unfold compAbsLe; infer_instance

/-- A dense 3×3 rational matrix (row major), standing for the 3×3 blocks
(`FullTensor`) of the source. -/
structure Mat3 where
  a11 : ℚ
  a12 : ℚ
  a13 : ℚ
  a21 : ℚ
  a22 : ℚ
  a23 : ℚ
  a31 : ℚ
  a32 : ℚ
  a33 : ℚ
deriving DecidableEq, Repr

/-- Matrix–vector product. -/
def matApp (M : Mat3) (v : Vec3) : Vec3 :=
  ⟨M.a11 * v.x + M.a12 * v.y + M.a13 * v.z,
   M.a21 * v.x + M.a22 * v.y + M.a23 * v.z,
   M.a31 * v.x + M.a32 * v.y + M.a33 * v.z⟩

/-- The identity 3×3 matrix. -/
def matId : Mat3 := ⟨1, 0, 0, 0, 1, 0, 0, 0, 1⟩

/-- All entries of `M` are bounded by `1` in absolute value (true of any
rotation matrix). -/
def entriesLeOne (M : Mat3) : Prop :=
  |M.a11| ≤ 1 ∧ |M.a12| ≤ 1 ∧ |M.a13| ≤ 1 ∧
  |M.a21| ≤ 1 ∧ |M.a22| ≤ 1 ∧ |M.a23| ≤ 1 ∧
  |M.a31| ≤ 1 ∧ |M.a32| ≤ 1 ∧ |M.a33| ≤ 1

instance (M : Mat3) : Decidable (entriesLeOne M) := by
  unfold entriesLeOne; infer_instance

/-! ## BurgerFilter (`surface.ts`, class `BurgerFilter`)

Modelled from the spec: the implementation of `BurgerFilter.apply`,
`setupOkada` and `setupPoly3D` is absent from the repository (the class
bodies in `surface.ts` are stubs).  Per the spec §4.6 the filter is a
pure boundary mapping: a permutation of the local axes
(normal, strike, dip) composed with per-axis sign flips, applied
in 3-chunks over a flat array.  Input vectors are in the Okada
convention: x = normal, y = strike, z = dip. -/

/-- The three local axis names accepted by `setAxisOrder`. -/
inductive AxisName where
  | normal
  | strike
  | dip
deriving DecidableEq, Repr

/-- Component of an Okada-convention vector selected by an axis name
(x = normal, y = strike, z = dip). -/
def axisComponent (v : Vec3) : AxisName → ℚ
  | AxisName.normal => v.x
  | AxisName.strike => v.y
  | AxisName.dip => v.z

/-- State of a `BurgerFilter`: the axis order and the per-output-axis
sign reverts. -/
structure BurgerFilter where
  axisOrder : AxisName × AxisName × AxisName
  axisRevert : Bool × Bool × Bool
deriving DecidableEq, Repr

/-- A freshly constructed `BurgerFilter`: Okada order, no revert
(doc comment: `@default ['normal','strike','dip']`, `@default [false,false,false]`). -/
def BurgerFilter.new : BurgerFilter :=
  ⟨(AxisName.normal, AxisName.strike, AxisName.dip), (false, false, false)⟩

/-- `BurgerFilter.setupOkada`: axisOrder = ['normal','strike','dip'],
axisRevert = [false,false,false] (doc comment of `setupOkada`). -/
def BurgerFilter.setupOkada (_f : BurgerFilter) : BurgerFilter :=
  ⟨(AxisName.normal, AxisName.strike, AxisName.dip), (false, false, false)⟩

/-- `BurgerFilter.setupPoly3D`: axisOrder = ['dip','strike','normal'],
axisRevert = [true,false,false] (doc comment of `setupPoly3D`). -/
def BurgerFilter.setupPoly3D (_f : BurgerFilter) : BurgerFilter :=
  ⟨(AxisName.dip, AxisName.strike, AxisName.normal), (true, false, false)⟩

/-- Sign factor of a revert flag. -/
def revertSign (b : Bool) : ℚ := if b then -1 else 1

/-- Apply a filter to a single Burgers vector: output axis `i` takes the
input component named `axisOrder[i]`, negated when `axisRevert[i]`. -/
def BurgerFilter.applyOne (f : BurgerFilter) (v : Vec3) : Vec3 :=
  ⟨revertSign f.axisRevert.1 * axisComponent v f.axisOrder.1,
   revertSign f.axisRevert.2.1 * axisComponent v f.axisOrder.2.1,
   revertSign f.axisRevert.2.2 * axisComponent v f.axisOrder.2.2⟩

/-- `BurgerFilter.apply` on a flat array: process the array in chunks of
three components; a trailing chunk shorter than 3 is returned unchanged. -/
def BurgerFilter.apply (f : BurgerFilter) : List ℚ → List ℚ
  | x :: y :: z :: rest =>
      let w := f.applyOne ⟨x, y, z⟩
      w.x :: w.y :: w.z :: f.apply rest
  | rest => rest

/-- The Poly3D convention transform exactly as the spec words it
(§4.6 and glossary): permutation (dip, strike, normal) of the Okada
components with sign flips (true, false, false), i.e. the dip
component, sign-inverted, becomes the first output component. -/
def poly3dTransformSpec (v : Vec3) : Vec3 := ⟨-v.z, v.y, v.x⟩

/-- Flatten a list of vectors into a flat component array. -/
def flattenVecs : List Vec3 → List ℚ
  | [] => []
  | v :: rest => v.x :: v.y :: v.z :: flattenVecs rest

/-! ## Coulomb constraint (`constraint` declaration part, class `Coulomb`)

Modelled from the spec: the implementation of the `Coulomb` projection is
absent from the repository (only the class declaration and its doc
comment exist).  Per spec §4.4, working in the triangle local frame
(x = normal, y/z = tangential): σ_n = t·ê_n, τ = t − σ_n ê_n,
τ_max = max(0, −σ_n μ_f + C); stick when ‖τ‖ ≤ τ_max (tangential
components of b reset to their pre-slip value), otherwise slide: scale
the tangential part of t to magnitude τ_max and adjust b through the
diagonal 3×3 block inverse.  The tangential norm ‖τ‖ is not rational,
so the projection takes it as an extra argument `nrm` constrained by
`nrm ≥ 0 ∧ nrm² = t.y² + t.z²` in the theorems. -/

/-- Normal component σ_n of a local-frame traction vector
(engineer convention: positive = tension). -/
def sigmaN (t : Vec3) : ℚ := t.x

/-- Tangential part τ of a local-frame traction vector. -/
def tauVec (t : Vec3) : Vec3 := ⟨0, t.y, t.z⟩

/-- Squared Euclidean norm of the tangential part. -/
def tauNormSq (t : Vec3) : ℚ := t.y ^ 2 + t.z ^ 2

/-- Coulomb shear cap τ_max = max(0, −σ_n·μ_f + C). -/
def tauMax (mu C : ℚ) (t : Vec3) : ℚ := max 0 (-(sigmaN t) * mu + C)

/-- Coulomb projection of the candidate pair (b, t) for one triangle.
`bPrev` is the pre-slip Burgers vector, `Ainv` the inverse of the
triangle's diagonal 3×3 influence block, `nrm` the tangential traction
magnitude ‖τ‖.  Returns the projected (b, t). -/
def coulombProject (mu C : ℚ) (Ainv : Mat3) (bPrev b t : Vec3) (nrm : ℚ) :
    Vec3 × Vec3 :=
  if nrm ≤ tauMax mu C t then
    (⟨b.x, bPrev.y, bPrev.z⟩, t)
  else
    let c := tauMax mu C t / nrm
    let tNew : Vec3 := ⟨t.x, c * t.y, c * t.z⟩
    (vadd b (matApp Ainv (vsub tNew t)), tNew)

/-! ## Seismic moment (`Surface.seismicMoment`, surface declaration part)

Modelled from the spec: the implementation of `Surface.seismicMoment` is
absent (declaration only).  Its doc comment states `M0 = μ·S·Δu`, with μ
the shear modulus computed from the model Young's modulus and Poisson's
ratio, S the surface area and Δu the mean displacement; the mean slip is
taken area-weighted, so M0 = μ · Σᵢ Aᵢ·Δuᵢ. -/

/-- Shear modulus μ = E / (2(1+ν)) (spec §3, Material). -/
def shearModulus (E nu : ℚ) : ℚ := E / (2 * (1 + nu))

/-- Per-triangle geometric data used by the seismic moment: area and
slip (Burgers vector) magnitude. -/
structure TriSlip where
  area : ℚ
  slip : ℚ
deriving DecidableEq, Repr

/-- `Surface.seismicMoment`: μ times the area-weighted total slip. -/
def seismicMoment (E nu : ℚ) (tris : List TriSlip) : ℚ :=
  shearModulus E nu * (tris.map (fun t => t.area * t.slip)).sum

/-- Total area S of a surface. -/
def totalArea (tris : List TriSlip) : ℚ := (tris.map (fun t => t.area)).sum

/-! ## `Surface.setBC` axis and type parsing (`surface.ts`)

Modelled from the spec: the body of `Surface.setBC` is a stub; the doc
comment (and spec §6) fixes the accepted axis and type names and §7
requires a loud synchronous failure naming the offending entity for any
other string. -/

/-- Boundary condition kind for one axis. -/
inductive BCKind where
  | traction
  | displacement
deriving DecidableEq, Repr

/-- The axis argument of `setBC`: a number or a string. -/
inductive AxisArg where
  | num (n : ℕ)
  | str (s : String)
deriving DecidableEq, Repr

/-- Parse the axis argument: 0|`x`|`normal`, 1|`y`|`strike`, 2|`z`|`dip`. -/
def parseAxis : AxisArg → Option AxisName
  | AxisArg.num n =>
      if n = 0 then some AxisName.normal
      else if n = 1 then some AxisName.strike
      else if n = 2 then some AxisName.dip
      else none
  | AxisArg.str s =>
      if s = "x" ∨ s = "normal" then some AxisName.normal
      else if s = "y" ∨ s = "strike" then some AxisName.strike
      else if s = "z" ∨ s = "dip" then some AxisName.dip
      else none

/-- The traction synonyms accepted by `setBC`. -/
def tractionSynonyms : List String :=
  ["t", "0", "free", "traction", "neumann", "unknown"]

/-- The displacement synonyms accepted by `setBC`. -/
def displacementSynonyms : List String :=
  ["b", "1", "displ", "displacement", "fixed", "dirichlet", "locked", "imposed"]

/-- Parse the boundary-condition type string. -/
def parseBCType (s : String) : Option BCKind :=
  if s ∈ tractionSynonyms then some BCKind.traction
  else if s ∈ displacementSynonyms then some BCKind.displacement
  else none

/-- Boundary condition of one triangle: one kind and one value per local
axis. -/
structure BC3 where
  normal : BCKind × ℚ
  strike : BCKind × ℚ
  dip : BCKind × ℚ
deriving DecidableEq, Repr

/-- Set one axis of a triangle's boundary condition. -/
def setAxisBC (bc : BC3) (ax : AxisName) (k : BCKind) (v : ℚ) : BC3 :=
  match ax with
  | AxisName.normal => { bc with normal := (k, v) }
  | AxisName.strike => { bc with strike := (k, v) }
  | AxisName.dip => { bc with dip := (k, v) }

/-- `Surface.setBC`: parse the axis and the type; on an unknown axis or
type string fail synchronously with an error message naming the
offending entity, otherwise update every triangle's BC entry. -/
def setBC (bcs : List BC3) (axis : AxisArg) (ty : String) (v : ℚ) :
    Except String (List BC3) :=
  match parseAxis axis with
  | none =>
      Except.error ("unknown axis: " ++ (match axis with
        | AxisArg.num n => toString n
        | AxisArg.str s => s))
  | some ax =>
      match parseBCType ty with
      | none => Except.error ("unknown boundary condition type: " ++ ty)
      | some k => Except.ok (bcs.map (fun bc => setAxisBC bc ax k v))

/-! ## Solver selection (`Forward.select`, solver declaration part)

Modelled from the spec: the bodies of the `Forward` constructor and
`Forward.select` are absent.  The doc comments state the possible names
`seidel`, `jacobi`, `gmres`, `cgns`, `parallel` and that the default is
`seidel` "(if solverName is unknown)": an unknown name is not an error,
it silently selects the default method. -/

/-- The iterative methods of the solver. -/
inductive SolverName where
  | seidel
  | jacobi
  | gmres
  | cgns
  | parallel
deriving DecidableEq, Repr

/-- The accepted solver-name strings. -/
def solverNameStrings : List String :=
  ["seidel", "jacobi", "gmres", "cgns", "parallel"]

/-- Parse a solver name; any unknown string falls back to `seidel`. -/
def parseSolverName (s : String) : SolverName :=
  if s = "seidel" then SolverName.seidel
  else if s = "jacobi" then SolverName.jacobi
  else if s = "gmres" then SolverName.gmres
  else if s = "cgns" then SolverName.cgns
  else if s = "parallel" then SolverName.parallel
  else SolverName.seidel

/-! ## Forward solver state machine (solver declaration part)

Modelled from the spec: the `Forward` implementation is absent.  Per
spec §4.2/§4.3 and the doc comments of the `Forward` constructor and
`setDirty`, the solver caches the assembled influence matrix A and
rebuilds it at `run()` exactly when the triangle count changed, some
triangle's BC type changed, the Poisson ratio changed, or the caller
set the dirty flag; otherwise A is reused and only the right-hand side
is recomputed from the current BC values and remotes.  The geometry of
the surfaces (not observable through this metadata) is represented by a
version counter which enters the assembled matrix but not the rebuild
test — this is precisely why the manual dirty flag exists. -/

/-- The per-triangle BC kinds of a model (values stripped). -/
def bcKinds3 (bc : BC3) : BCKind × BCKind × BCKind :=
  (bc.normal.1, bc.strike.1, bc.dip.1)

/-- Observable model state from the solver's point of view. -/
structure ModelState where
  bcs : List BC3
  poisson : ℚ
  young : ℚ
  density : ℚ
  remotes : List (ℚ × ℚ × ℚ × ℚ × ℚ × ℚ)
  geomVersion : ℕ
deriving DecidableEq, Repr

/-- Number of triangles of the model. -/
def ModelState.nbTriangles (m : ModelState) : ℕ := m.bcs.length

/-- The metadata whose change triggers a rebuild: triangle count,
per-triangle BC types, Poisson ratio. -/
def rebuildKey (m : ModelState) : ℕ × List (BCKind × BCKind × BCKind) × ℚ :=
  (m.nbTriangles, m.bcs.map bcKinds3, m.poisson)

/-- Abstract representation of the assembled influence matrix: it is a
function of the geometry (version), the triangle count, the BC types and
the Poisson ratio only (spec §4.2: BC values, remotes, Young's modulus
and density enter the right-hand side, not A). -/
def assembleA (m : ModelState) : ℕ × List (BCKind × BCKind × BCKind) × ℚ × ℕ :=
  (m.nbTriangles, m.bcs.map bcKinds3, m.poisson, m.geomVersion)

/-- Abstract representation of the right-hand side: a function of the
whole current model (BC values, remotes, material). -/
def computeRhs (m : ModelState) : ModelState := m

/-- State of a `Forward` solver between runs. -/
structure ForwardState where
  cache : Option ((ℕ × List (BCKind × BCKind × BCKind) × ℚ) ×
                  (ℕ × List (BCKind × BCKind × BCKind) × ℚ × ℕ))
  dirty : Bool
  eps : ℚ
  maxIter : ℕ
  method : SolverName
  cores : ℕ
deriving Repr

/-- A freshly constructed `Forward` solver: no cached matrix, not dirty,
eps = 1e-9, maxIter = 200, method seidel, 1 core (doc defaults). -/
def ForwardState.new : ForwardState :=
  ⟨none, false, 1 / 10 ^ 9, 200, SolverName.seidel, 1⟩

/-- `Forward.setDirty`: setting `true` marks the system matrix for
rebuild; setting `false` "will never work" (doc comment) — it leaves
the state unchanged. -/
def ForwardState.setDirty (s : ForwardState) (b : Bool) : ForwardState :=
  if b then { s with dirty := true } else s

/-- `Forward.setEps`. -/
def ForwardState.setEps (s : ForwardState) (v : ℚ) : ForwardState :=
  { s with eps := v }

/-- `Forward.setMaxIter`. -/
def ForwardState.setMaxIter (s : ForwardState) (v : ℕ) : ForwardState :=
  { s with maxIter := v }

/-- `Forward.select`: choose the iterative method by name (unknown names
fall back to seidel); never fails. -/
def ForwardState.select (s : ForwardState) (name : String) : ForwardState :=
  { s with method := parseSolverName name }

/-- `Forward.setNbCores`. -/
def ForwardState.setNbCores (s : ForwardState) (n : ℕ) : ForwardState :=
  { s with cores := n }

/-- Whether `run()` must rebuild the influence matrix. -/
def needRebuild (s : ForwardState) (m : ModelState) : Bool :=
  s.dirty ||
    match s.cache with
    | none => true
    | some (key, _) => decide (key ≠ rebuildKey m)

/-- `Forward.run`: rebuild A if needed (then clear the dirty flag and
cache the new matrix under the current metadata key), otherwise reuse
the cached A; in both cases recompute the right-hand side from the
current model.  Returns the new solver state, whether a rebuild
happened, the matrix used and the right-hand side used. -/
def ForwardState.run (s : ForwardState) (m : ModelState) :
    ForwardState × Bool ×
    (ℕ × List (BCKind × BCKind × BCKind) × ℚ × ℕ) × ModelState :=
  if needRebuild s m then
    let A := assembleA m
    ({ s with cache := some (rebuildKey m, A), dirty := false },
     true, A, computeRhs m)
  else
    match s.cache with
    | some (_, A) => (s, false, A, computeRhs m)
    | none => -- unreachable: needRebuild is true when the cache is empty
      let A := assembleA m
      ({ s with cache := some (rebuildKey m, A), dirty := false },
       true, A, computeRhs m)

/-! ## Iterative solver stopping rule (spec §4.3, `setEps` / `setMaxIter`)

Modelled from the spec: the iteration loop is absent from the
repository.  Per spec §4.3 the solver stops as soon as the relative
residual ‖r⁽ᵏ⁾‖/‖r⁽⁰⁾‖ is at most ε or the iteration count reaches
K_max, and on reaching K_max it returns the best-so-far iterate.  The
loop is parametric in the sweep `step` and the residual norm `resid`
(both abstract here); the relative test is phrased multiplicatively
(resid x ≤ ε·r₀) to stay in ℚ. -/

/-- Default solver tolerance (doc comment `@default 1e-9`). -/
def defaultEps : ℚ := 1 / 10 ^ 9

/-- Default maximum iteration count (doc comment `@default 200`). -/
def defaultMaxIter : ℕ := 200

/-- One solver loop: `fuel` is the number of sweeps still allowed, `k`
the number of sweeps done so far, `x` the current iterate and `best` the
best-so-far iterate.  Stops when the residual test passes; on fuel
exhaustion returns the best-so-far iterate. -/
def runLoop {α : Type} (step : α → α) (resid : α → ℚ) (tol : ℚ) :
    ℕ → ℕ → α → α → α × ℕ
  | 0, k, _x, best => (best, k)
  | fuel + 1, k, x, best =>
      if resid x ≤ tol then (x, k)
      else
        let xNew := step x
        let bestNew := if resid xNew < resid best then xNew else best
        runLoop step resid tol fuel (k + 1) xNew bestNew

/-- The solver run: start from `x0`, use the relative tolerance
ε·resid x0, allow at most `kmax` sweeps.  Returns the final iterate and
the number of sweeps performed. -/
def solverRun {α : Type} (step : α → α) (resid : α → ℚ) (eps : ℚ)
    (kmax : ℕ) (x0 : α) : α × ℕ :=
  runLoop step resid (eps * resid x0) kmax 0 x0 x0

/-! ## D± default offsets (`surface.ts` and `solver.d.ts`)

These two constants do appear literally in the repository:
`Surface.displPlus(local=true, atTriangles=true, delta=1e-7)` and
`Surface.displMinus(..., delta=1e-7)` in `surface.ts`, and the
`Solution.delta` property documented with `@default 1e-8` in
`solver.d.ts`. -/

/-- Default `delta` argument of `Surface.displPlus` / `Surface.displMinus`
(`surface.ts`: `delta: number=1e-7`). -/
def surfaceDisplDefaultDelta : ℚ := 1 / 10 ^ 7

/-- Default of the `Solution.delta` threshold used by
`burgersPlus` / `burgersMinus` (`solver.d.ts`: `@default 1e-8`). -/
def solutionDefaultDelta : ℚ := 1 / 10 ^ 8

/-! ## Surface displacement and the D± decomposition (spec §4.5, §4.1)

Modelled from the spec: the post-processing bodies (`Surface.displ`,
`displPlus`, `displMinus`, equivalently `Solution.burgers` /
`burgersPlus` / `burgersMinus`) are absent from the repository.  Per
spec §4.1/§4.5 the displacement field evaluated at the D±-offset points
c ± δ·n̂ of a triangle decomposes into a part that is continuous across
the element (the influence of everything else plus the smooth part of
the self influence) and the jump b carried by the element itself:
u(c + s·n̂) = g(s) + [s > 0]·b, so b⁺ − b⁻ = b + (g(δ) − g(−δ)) and the
claim holds up to O(δ) as soon as g is Lipschitz.  The `local` flag
rotates per-triangle values to the global frame; `atTriangles = false`
interpolates triangle values to vertices by area-weighted averaging
(spec §4.5, "Coordinate reports"). -/

/-- One triangle of a solved model: its Burgers vector `b` in the local
frame, the continuous part `g` of the displacement field along the
normal offset, and the local→global rotation `R`. -/
structure TriModel where
  b : Vec3
  g : ℚ → Vec3
  R : Mat3

/-- A solved surface: its triangles and, for each vertex, the
area-weights of the incident triangles used by the triangle→vertex
interpolation. -/
structure SurfaceModel where
  triangles : List TriModel
  vertexWeights : List (List ℚ)

/-- Displacement at signed normal offset `s` from a triangle's center:
the continuous part plus the jump `b` on the positive side. -/
def evalSide (t : TriModel) (s : ℚ) : Vec3 :=
  vadd (t.g s) (if 0 < s then t.b else vzero)

/-- Rotate a per-triangle value to the global frame unless `loc` asks
for the local frame. -/
def rotIf (loc : Bool) (t : TriModel) (v : Vec3) : Vec3 :=
  if loc then v else matApp t.R v

/-- Weighted sum of a list of vectors. -/
def wsum (ws : List ℚ) (vs : List Vec3) : Vec3 :=
  (List.zipWith vsmul ws vs).foldr vadd vzero

/-- Second pipeline stage of the coordinate reports: keep per-triangle
values (`atT = true`) or interpolate them to the vertices. -/
def stage2 (S : SurfaceModel) (atT : Bool) (base : List Vec3) : List Vec3 :=
  if atT then base else S.vertexWeights.map (fun ws => wsum ws base)

/-- `Surface.displ` / `Solution.burgers`: the Burgers vectors through
the (local, atTriangles) report pipeline. -/
def SurfaceModel.displ (S : SurfaceModel) (loc atT : Bool) : List Vec3 :=
  stage2 S atT (S.triangles.map (fun t => rotIf loc t t.b))

/-- `Surface.displPlus` / `Solution.burgersPlus`: displacement on the
positive side, evaluated at offset +δ·n̂. -/
def SurfaceModel.displPlus (S : SurfaceModel) (loc atT : Bool) (δ : ℚ) :
    List Vec3 :=
  stage2 S atT (S.triangles.map (fun t => rotIf loc t (evalSide t δ)))

/-- `Surface.displMinus` / `Solution.burgersMinus`: displacement on the
negative side, evaluated at offset −δ·n̂. -/
def SurfaceModel.displMinus (S : SurfaceModel) (loc atT : Bool) (δ : ℚ) :
    List Vec3 :=
  stage2 S atT (S.triangles.map (fun t => rotIf loc t (evalSide t (-δ))))

/-- `Surface.displPlus` with its default `delta` argument
(`surface.ts`: `delta: number=1e-7`). -/
def SurfaceModel.displPlusDefault (S : SurfaceModel) (loc atT : Bool) :
    List Vec3 :=
  S.displPlus loc atT surfaceDisplDefaultDelta

/-- 3-ary pointwise combination of vector lists (truncating). -/
def zipWith3v (f : Vec3 → Vec3 → Vec3 → Vec3) :
    List Vec3 → List Vec3 → List Vec3 → List Vec3
  | p :: ps, m :: ms, b :: bs => f p m b :: zipWith3v f ps ms bs
  | _, _, _ => []

/-- The pointwise decomposition error b⁺ − b⁻ − b over the report
arrays. -/
def decompErr (S : SurfaceModel) (loc atT : Bool) (δ : ℚ) : List Vec3 :=
  zipWith3v (fun p m b => vsub (vsub p m) b)
    (S.displPlus loc atT δ) (S.displMinus loc atT δ) (S.displ loc atT)

/-- `Surface.displMinus` with its default `delta` argument
(`surface.ts`: `delta: number=1e-7`). -/
def SurfaceModel.displMinusDefault (S : SurfaceModel) (loc atT : Bool) :
    List Vec3 :=
  S.displMinus loc atT surfaceDisplDefaultDelta

/-- A concrete one-triangle solved surface used to instantiate the
decomposition statements: Burgers vector (1,2,3), constant continuous
part, identity rotation, one vertex carrying the full area weight. -/
def sampleTri : TriModel := ⟨⟨1, 2, 3⟩, fun _ => vzero, matId⟩

/-- A concrete surface made of `sampleTri` with a single vertex. -/
def sampleSurface : SurfaceModel := ⟨[sampleTri], [[1]]⟩

/-- A concrete one-triangle model: normal locked, strike/dip free,
ν = 1/4, E = 1, ρ = 1000, no remote. -/
def sampleModelA : ModelState :=
  ⟨[⟨(BCKind.displacement, 0), (BCKind.traction, 0), (BCKind.traction, 0)⟩],
   1 / 4, 1, 1000, [], 0⟩

/-- The same model with a different Young's modulus, density and remote
(none of which belong to the rebuild key). -/
def sampleModelB : ModelState :=
  { sampleModelA with young := 30, density := 2000,
                      remotes := [(0, 0, 0, 0, 0, -1)] }

/-- Pointwise decomposition error of one triangle through the report
pipeline's first stage: (bPlus - bMinus) - b after the optional
rotation. -/
def decompCore (loc : Bool) (d : ℚ) (t : TriModel) : Vec3 :=
  vsub (vsub (rotIf loc t (evalSide t d)) (rotIf loc t (evalSide t (-d))))
    (rotIf loc t t.b)

/-! ## Helper lemmas -/

/-- Two 3-vectors with equal components are equal. -/
theorem Vec3.ext3 {a b : Vec3} (hx : a.x = b.x) (hy : a.y = b.y)
    (hz : a.z = b.z) : a = b := by
  cases a; cases b; simp_all

/-- `matApp` distributes over vector subtraction. -/
theorem matApp_vsub (M : Mat3) (a b : Vec3) :
    matApp M (vsub a b) = vsub (matApp M a) (matApp M b) := by
  simp only [matApp, vsub, Vec3.mk.injEq]
  refine ⟨by ring, by ring, by ring⟩

/-- Bound for one row of a matrix–vector product with entries ≤ 1. -/
theorem rowBound (a1 a2 a3 e1 e2 e3 B : ℚ)
    (h1 : |a1| ≤ 1) (h2 : |a2| ≤ 1) (h3 : |a3| ≤ 1)
    (f1 : |e1| ≤ B) (f2 : |e2| ≤ B) (f3 : |e3| ≤ B) :
    |a1 * e1 + a2 * e2 + a3 * e3| ≤ 3 * B := by
  have g1 : |a1 * e1| ≤ B := by
    rw [abs_mul]
    calc |a1| * |e1| ≤ 1 * |e1| :=
          mul_le_mul_of_nonneg_right h1 (abs_nonneg _)
      _ = |e1| := one_mul _
      _ ≤ B := f1
  have g2 : |a2 * e2| ≤ B := by
    rw [abs_mul]
    calc |a2| * |e2| ≤ 1 * |e2| :=
          mul_le_mul_of_nonneg_right h2 (abs_nonneg _)
      _ = |e2| := one_mul _
      _ ≤ B := f2
  have g3 : |a3 * e3| ≤ B := by
    rw [abs_mul]
    calc |a3| * |e3| ≤ 1 * |e3| :=
          mul_le_mul_of_nonneg_right h3 (abs_nonneg _)
      _ = |e3| := one_mul _
      _ ≤ B := f3
  calc |a1 * e1 + a2 * e2 + a3 * e3|
      ≤ |a1 * e1 + a2 * e2| + |a3 * e3| := abs_add _ _
    _ ≤ |a1 * e1| + |a2 * e2| + |a3 * e3| := by
        have := abs_add (a1 * e1) (a2 * e2)
        linarith
    _ ≤ 3 * B := by linarith

/-- Componentwise bound of a matrix–vector product with entries ≤ 1. -/
theorem matApp_bound (M : Mat3) (v : Vec3) (B : ℚ)
    (hM : entriesLeOne M) (hv : compAbsLe v B) :
    compAbsLe (matApp M v) (3 * B) := by
  obtain ⟨m11, m12, m13, m21, m22, m23, m31, m32, m33⟩ := hM
  obtain ⟨hx, hy, hz⟩ := hv
  exact ⟨rowBound _ _ _ _ _ _ _ m11 m12 m13 hx hy hz,
         rowBound _ _ _ _ _ _ _ m21 m22 m23 hx hy hz,
         rowBound _ _ _ _ _ _ _ m31 m32 m33 hx hy hz⟩

/-- Relax the bound of `compAbsLe`. -/
theorem compAbsLe_mono {v : Vec3} {B B' : ℚ} (h : compAbsLe v B)
    (hBB : B ≤ B') : compAbsLe v B' :=
  ⟨h.1.trans hBB, h.2.1.trans hBB, h.2.2.trans hBB⟩

/-- `compAbsLe` is subadditive over `vadd`. -/
theorem compAbsLe_vadd {a b : Vec3} {A B : ℚ} (ha : compAbsLe a A)
    (hb : compAbsLe b B) : compAbsLe (vadd a b) (A + B) :=
  ⟨(abs_add _ _).trans (add_le_add ha.1 hb.1),
   (abs_add _ _).trans (add_le_add ha.2.1 hb.2.1),
   (abs_add _ _).trans (add_le_add ha.2.2 hb.2.2)⟩

/-- `compAbsLe` scales under nonnegative scalar multiplication. -/
theorem compAbsLe_vsmul {w : ℚ} (hw : 0 ≤ w) {v : Vec3} {B : ℚ}
    (hv : compAbsLe v B) : compAbsLe (vsmul w v) (w * B) := by
  refine ⟨?_, ?_, ?_⟩ <;>
    simp only [vsmul, abs_mul, abs_of_nonneg hw] <;>
    exact mul_le_mul_of_nonneg_left (by simp_all [compAbsLe]) hw

/-- Pointwise 3-term subtraction distributes over `vadd`. -/
theorem vsub3_vadd (p P m M b B : Vec3) :
    vsub (vsub (vadd p P) (vadd m M)) (vadd b B) =
    vadd (vsub (vsub p m) b) (vsub (vsub P M) B) := by
  simp only [vadd, vsub, Vec3.mk.injEq]
  refine ⟨by ring, by ring, by ring⟩

/-- Pointwise 3-term subtraction commutes with scalar multiplication. -/
theorem vsub3_vsmul (w : ℚ) (p m b : Vec3) :
    vsub (vsub (vsmul w p) (vsmul w m)) (vsmul w b) =
    vsmul w (vsub (vsub p m) b) := by
  simp only [vsmul, vsub, Vec3.mk.injEq]
  refine ⟨by ring, by ring, by ring⟩

/-- The weighted sum of pointwise 3-term differences of mapped lists. -/
theorem wsum_map_sub3 {α : Type} (fP fM fB : α → Vec3) :
    ∀ (ws : List ℚ) (l : List α),
      vsub (vsub (wsum ws (l.map fP)) (wsum ws (l.map fM)))
        (wsum ws (l.map fB)) =
      wsum ws (l.map fun a => vsub (vsub (fP a) (fM a)) (fB a))
  | [], l => by
      simp only [wsum, List.zipWith_nil_left, List.foldr_nil, vsub, vzero,
        Vec3.mk.injEq]
      refine ⟨by ring, by ring, by ring⟩
  | _ :: _, [] => by
      simp only [List.map_nil, wsum, List.zipWith_nil_right, List.foldr_nil,
        vsub, vzero, Vec3.mk.injEq]
      refine ⟨by ring, by ring, by ring⟩
  | w :: ws, a :: l => by
      simp only [List.map_cons, wsum, List.zipWith_cons_cons, List.foldr_cons]
      have ih := wsum_map_sub3 fP fM fB ws l
      simp only [wsum] at ih
      rw [vsub3_vadd, vsub3_vsmul, ih]

/-- Bound for a nonnegative weighted sum of componentwise-bounded
vectors. -/
theorem wsum_bound :
    ∀ (ws : List ℚ) (vs : List Vec3) (B : ℚ),
      ws.length = vs.length → (∀ w ∈ ws, 0 ≤ w) →
      (∀ v ∈ vs, compAbsLe v B) →
      compAbsLe (wsum ws vs) (ws.sum * B)
  | [], [], B, _, _, _ => by
      simp [wsum, compAbsLe, vzero]
  | w :: ws, v :: vs, B, hlen, hw, hv => by
      have ih := wsum_bound ws vs B (by simpa using hlen)
        (fun u hu => hw u (List.mem_cons_of_mem _ hu))
        (fun u hu => hv u (List.mem_cons_of_mem _ hu))
      have hw0 : 0 ≤ w := hw w (List.mem_cons_self _ _)
      have hv0 : compAbsLe v B := hv v (List.mem_cons_self _ _)
      have step : compAbsLe (vadd (vsmul w v) (wsum ws vs))
          (w * B + ws.sum * B) :=
        compAbsLe_vadd (compAbsLe_vsmul hw0 hv0) ih
      have : wsum (w :: ws) (v :: vs) = vadd (vsmul w v) (wsum ws vs) := by
        simp [wsum]
      rw [this, List.sum_cons, add_mul]
      exact step

/-- `zipWith3v` over three maps of the same list fuses into one map. -/
theorem zipWith3v_map {α : Type} (F : Vec3 → Vec3 → Vec3 → Vec3)
    (f g h : α → Vec3) :
    ∀ l : List α,
      zipWith3v F (l.map f) (l.map g) (l.map h) =
      l.map fun a => F (f a) (g a) (h a)
  | [] => rfl
  | a :: l => by
      simp only [List.map_cons, zipWith3v]
      rw [zipWith3v_map F f g h l]

/-- The fresh (Okada-convention) filter is the identity on every flat
array. -/
theorem apply_new_id : ∀ l : List ℚ, BurgerFilter.new.apply l = l
  | [] => rfl
  | [_] => rfl
  | [_, _] => rfl
  | x :: y :: z :: rest => by
      simp only [BurgerFilter.apply, BurgerFilter.applyOne, BurgerFilter.new,
        axisComponent, revertSign, if_neg Bool.false_ne_true, one_mul]
      exact congrArg (fun l => x :: y :: z :: l) (apply_new_id rest)

/-- The Poly3D filter agrees vector-by-vector with the spec's
(dip, strike, normal)/(true, false, false) transform. -/
theorem apply_poly3d_eq_spec :
    ∀ vs : List Vec3,
      (BurgerFilter.setupPoly3D BurgerFilter.new).apply (flattenVecs vs) =
      flattenVecs (vs.map poly3dTransformSpec)
  | [] => rfl
  | v :: vs => by
      simp only [flattenVecs, List.map_cons, BurgerFilter.apply,
        BurgerFilter.applyOne, BurgerFilter.setupPoly3D, axisComponent,
        revertSign, if_pos, if_neg Bool.false_ne_true, one_mul,
        poly3dTransformSpec, neg_one_mul]
      exact congrArg (fun l => -v.z :: v.y :: v.x :: l) (apply_poly3d_eq_spec vs)

/-- C3 counterexample: applying the Okada filter after the Poly3D filter
does **not** return the original array — the Okada filter is the
identity, so the round trip leaves the Poly3D-converted array
[−3, 2, 1] in place of the original [1, 2, 3]. -/
theorem okada_after_poly3d_not_identity :
    (BurgerFilter.setupOkada BurgerFilter.new).apply
      ((BurgerFilter.setupPoly3D BurgerFilter.new).apply [1, 2, 3]) ≠
      [1, 2, 3] := by
  norm_num [BurgerFilter.apply, BurgerFilter.applyOne, BurgerFilter.setupOkada,
    BurgerFilter.setupPoly3D, BurgerFilter.new, axisComponent, revertSign]

/-- C3 (amended): a fresh `BurgerFilter` (or one after `setupOkada`)
applies the identity to every Burgers flat array; after `setupPoly3D`
it applies the (dip, strike, normal) permutation with sign flips
(true, false, false); and applying the Okada filter after the Poly3D
filter returns the Poly3D-converted array unchanged (not the original
array: the Okada filter is the identity, not the inverse of the Poly3D
transform). -/
theorem burgerFilter_conventions :
    (∀ l : List ℚ, BurgerFilter.new.apply l = l) ∧
    (∀ l : List ℚ, (BurgerFilter.setupOkada BurgerFilter.new).apply l = l) ∧
    (∀ vs : List Vec3,
      (BurgerFilter.setupPoly3D BurgerFilter.new).apply (flattenVecs vs) =
        flattenVecs (vs.map poly3dTransformSpec)) ∧
    (∀ l : List ℚ,
      (BurgerFilter.setupOkada BurgerFilter.new).apply
        ((BurgerFilter.setupPoly3D BurgerFilter.new).apply l) =
      (BurgerFilter.setupPoly3D BurgerFilter.new).apply l) := by
  have hOkada : BurgerFilter.setupOkada BurgerFilter.new = BurgerFilter.new :=
    rfl
  refine ⟨apply_new_id, ?_, apply_poly3d_eq_spec, ?_⟩
  · intro l
    rw [hOkada]
    exact apply_new_id l
  · intro l
    rw [hOkada]
    exact apply_new_id _

/-- C3 witness: the amended statement evaluated on the concrete array
[1, 2, 3]: the Poly3D filter sends it to [−3, 2, 1]. -/
theorem burgerFilter_conventions_witness :
    BurgerFilter.new.apply [1, 2, 3] = [1, 2, 3] ∧
    (BurgerFilter.setupPoly3D BurgerFilter.new).apply
      (flattenVecs [⟨1, 2, 3⟩]) =
      flattenVecs ([⟨1, 2, 3⟩].map poly3dTransformSpec) :=
  ⟨burgerFilter_conventions.1 [1, 2, 3],
   burgerFilter_conventions.2.2.1 [⟨1, 2, 3⟩]⟩

/-- C2: the Coulomb projection sticks below the cap — the tangential
components of b are reset to the pre-slip values and the traction is
untouched — and above the cap it slides: the tangential traction is
rescaled to magnitude τ_max with its direction preserved (a nonnegative
multiple of the original tangential traction), the normal traction is
kept, and b is adjusted through the diagonal 3×3 block inverse. -/
theorem coulomb_projection (mu C : ℚ) (Ainv : Mat3) (bPrev b t : Vec3)
    (nrm : ℚ) (hnrm : 0 ≤ nrm) (hsq : nrm ^ 2 = tauNormSq t) :
    (nrm ≤ tauMax mu C t →
      coulombProject mu C Ainv bPrev b t nrm =
        (⟨b.x, bPrev.y, bPrev.z⟩, t)) ∧
    (tauMax mu C t < nrm →
      tauNormSq (coulombProject mu C Ainv bPrev b t nrm).2 =
          (tauMax mu C t) ^ 2 ∧
      (coulombProject mu C Ainv bPrev b t nrm).2.x = t.x ∧
      (∃ c : ℚ, 0 ≤ c ∧
        (coulombProject mu C Ainv bPrev b t nrm).2.y = c * t.y ∧
        (coulombProject mu C Ainv bPrev b t nrm).2.z = c * t.z) ∧
      (coulombProject mu C Ainv bPrev b t nrm).1 =
        vadd b (matApp Ainv
          (vsub (coulombProject mu C Ainv bPrev b t nrm).2 t))) := by
  constructor
  · intro hstick
    simp [coulombProject, hstick]
  · intro hslide
    have hnot : ¬ nrm ≤ tauMax mu C t := not_le.mpr hslide
    have htm0 : 0 ≤ tauMax mu C t := le_max_left 0 _
    have hpos : 0 < nrm := lt_of_le_of_lt htm0 hslide
    have hne : nrm ≠ 0 := ne_of_gt hpos
    refine ⟨?_, ?_, ?_, ?_⟩
    · simp only [coulombProject, if_neg hnot, tauNormSq]
      have expand : (tauMax mu C t / nrm * t.y) ^ 2 +
          (tauMax mu C t / nrm * t.z) ^ 2 =
          (tauMax mu C t / nrm) ^ 2 * (t.y ^ 2 + t.z ^ 2) := by ring
      rw [expand, ← tauNormSq, ← hsq]
      field_simp
    · simp [coulombProject, if_neg hnot]
    · refine ⟨tauMax mu C t / nrm, div_nonneg htm0 hnrm, ?_, ?_⟩ <;>
        simp [coulombProject, if_neg hnot]
    · simp [coulombProject, if_neg hnot]

/-- C2 witness: a concrete stick configuration — traction (−5, 3, 4)
with ‖τ‖ = 5, friction 2 and cohesion 0, so τ_max = 10 ≥ 5: the
tangential components of b come back from the pre-slip vector
(9, 9, 9) and the traction is unchanged. -/
theorem coulomb_projection_witness :
    coulombProject 2 0 matId ⟨9, 9, 9⟩ ⟨1, 1, 1⟩ ⟨-5, 3, 4⟩ 5 =
      (⟨1, 9, 9⟩, ⟨-5, 3, 4⟩) :=
  (coulomb_projection 2 0 matId ⟨9, 9, 9⟩ ⟨1, 1, 1⟩ ⟨-5, 3, 4⟩ 5
      (by norm_num) (by norm_num [tauNormSq])).1
    (by norm_num [tauMax, sigmaN])

/-- Area-weighted slip sum under uniform slip. -/
theorem sum_area_slip_uniform (du : ℚ) :
    ∀ tris : List TriSlip, (∀ t ∈ tris, t.slip = du) →
      (tris.map fun t => t.area * t.slip).sum =
      (tris.map fun t => t.area).sum * du
  | [], _ => by simp
  | t :: tris, h => by
      have ht : t.slip = du := h t (List.mem_cons_self _ _)
      have ih := sum_area_slip_uniform du tris
        (fun u hu => h u (List.mem_cons_of_mem _ hu))
      simp only [List.map_cons, List.sum_cons, ih, ht]
      ring

/-- C6: for a surface whose triangles all carry the same slip Δu,
`Surface.seismicMoment` returns μ·S·Δu with μ = E/[2(1+ν)] and S the
total area. -/
theorem seismicMoment_uniform_slip (E nu du : ℚ) (tris : List TriSlip)
    (huniform : ∀ t ∈ tris, t.slip = du) :
    seismicMoment E nu tris = shearModulus E nu * totalArea tris * du ∧
    shearModulus E nu = E / (2 * (1 + nu)) := by
  constructor
  · unfold seismicMoment totalArea
    rw [sum_area_slip_uniform du tris huniform, mul_assoc]
  · rfl

/-- C6 witness: two triangles of areas 2 and 4 under uniform slip 3 in
a material with E = 1, ν = 1/4: the moment is (2/5)·6·3 = 36/5. -/
theorem seismicMoment_uniform_slip_witness :
    seismicMoment 1 (1 / 4) [⟨2, 3⟩, ⟨4, 3⟩] =
      shearModulus 1 (1 / 4) * totalArea [⟨2, 3⟩, ⟨4, 3⟩] * 3 :=
  (seismicMoment_uniform_slip 1 (1 / 4) 3 [⟨2, 3⟩, ⟨4, 3⟩]
      (by
        intro t ht
        simp only [List.mem_cons, List.not_mem_nil, or_false] at ht
        rcases ht with h | h <;> subst h <;> rfl)).1

/-- C7: `Surface.setBC` accepts exactly the documented axis and type
names (all synonyms within a set being equivalent in that they parse to
the same kind), and for any axis or type string outside these sets the
call fails synchronously with an error naming the offending entity. -/
theorem setBC_axis_type_validation :
    (∀ a : AxisArg, (parseAxis a).isSome = true ↔
        a ∈ ([AxisArg.num 0, AxisArg.str "x", AxisArg.str "normal",
              AxisArg.num 1, AxisArg.str "y", AxisArg.str "strike",
              AxisArg.num 2, AxisArg.str "z", AxisArg.str "dip"] :
             List AxisArg)) ∧
    (∀ s : String,
        parseBCType s = some BCKind.traction ↔ s ∈ tractionSynonyms) ∧
    (∀ s : String,
        parseBCType s = some BCKind.displacement ↔
          s ∈ displacementSynonyms) ∧
    (∀ (bcs : List BC3) (axis : AxisArg) (ty : String) (v : ℚ)
        (ax : AxisName) (k : BCKind),
        parseAxis axis = some ax → parseBCType ty = some k →
        setBC bcs axis ty v =
          Except.ok (bcs.map fun bc => setAxisBC bc ax k v)) ∧
    (∀ (bcs : List BC3) (ty : String) (v : ℚ) (s : String),
        parseAxis (AxisArg.str s) = none →
        setBC bcs (AxisArg.str s) ty v =
          Except.error ("unknown axis: " ++ s)) ∧
    (∀ (bcs : List BC3) (axis : AxisArg) (v : ℚ) (ty : String)
        (ax : AxisName),
        parseAxis axis = some ax → parseBCType ty = none →
        setBC bcs axis ty v =
          Except.error ("unknown boundary condition type: " ++ ty)) := by
  refine ⟨?_, ?_, ?_, ?_, ?_, ?_⟩
  · intro a
    cases a with
    | num n =>
        simp only [parseAxis]
        split_ifs with h1 h2 h3
        · subst h1; simp
        · subst h2; simp
        · subst h3; simp
        · simp [h1, h2, h3]
    | str s =>
        simp only [parseAxis]
        split_ifs with h1 h2 h3
        · rcases h1 with h | h <;> subst h <;> simp
        · rcases h2 with h | h <;> subst h <;> simp
        · rcases h3 with h | h <;> subst h <;> simp
        · push_neg at h1 h2 h3
          simp [h1.1, h1.2, h2.1, h2.2, h3.1, h3.2]
  · intro s
    simp only [parseBCType]
    split_ifs with h1 h2
    · simp [h1]
    · simp [h1, h2]
    · simp [h1]
  · intro s
    simp only [parseBCType]
    split_ifs with h1 h2
    · have : s ∉ displacementSynonyms := by
        revert h1
        simp [tractionSynonyms, displacementSynonyms]
        rintro (h | h | h | h | h | h) <;> subst h <;> simp
      simp [this]
    · simp [h2]
    · simp [h2]
  · intro bcs axis ty v ax k hax hty
    simp [setBC, hax, hty]
  · intro bcs ty v s hax
    simp [setBC, hax]
  · intro bcs axis v ty ax hax hty
    simp [setBC, hax, hty]

/-- C7 witness: "strike" parses as a valid axis, "traction" as a valid
type, so the call succeeds on a one-triangle surface; the axis string
"foo" is rejected with an error naming it. -/
theorem setBC_axis_type_validation_witness :
    ((parseAxis (AxisArg.str "strike")).isSome = true ↔
      AxisArg.str "strike" ∈
        ([AxisArg.num 0, AxisArg.str "x", AxisArg.str "normal",
          AxisArg.num 1, AxisArg.str "y", AxisArg.str "strike",
          AxisArg.num 2, AxisArg.str "z", AxisArg.str "dip"] :
         List AxisArg)) ∧
    setBC [] (AxisArg.str "foo") "t" 0 =
      Except.error ("unknown axis: " ++ "foo") :=
  ⟨setBC_axis_type_validation.1 (AxisArg.str "strike"),
   setBC_axis_type_validation.2.2.2.2.1 [] "t" 0 "foo" (by decide)⟩

/-- C9: selecting a solver name outside
{seidel, jacobi, gmres, cgns, parallel} never fails: the name parses to
the default `seidel` method and `Forward.select` silently installs it —
in contrast with the loud configuration errors of `setBC`. -/
theorem unknown_solver_name_falls_back (name : String)
    (h : name ∉ solverNameStrings) :
    parseSolverName name = SolverName.seidel ∧
    ∀ s : ForwardState,
      s.select name = { s with method := SolverName.seidel } := by
  simp only [solverNameStrings, List.mem_cons, List.not_mem_nil, or_false,
    not_or] at h
  obtain ⟨h1, h2, h3, h4, h5⟩ := h
  have hp : parseSolverName name = SolverName.seidel := by
    simp [parseSolverName, h1, h2, h3, h4, h5]
  exact ⟨hp, fun s => by simp [ForwardState.select, hp]⟩

/-- C9 witness: the unknown name "foo" selects `seidel` on a fresh
solver. -/
theorem unknown_solver_name_falls_back_witness :
    parseSolverName "foo" = SolverName.seidel ∧
    ForwardState.new.select "foo" =
      { ForwardState.new with method := SolverName.seidel } :=
  ⟨(unknown_solver_name_falls_back "foo" (by decide)).1,
   (unknown_solver_name_falls_back "foo" (by decide)).2 ForwardState.new⟩

/-- C10: the dirty flag is monotone — `setDirty false` is a no-op,
`setDirty true` marks the state dirty, no other public setter touches
the flag, and the only transition that clears it is a completed rebuild
inside `run()` (which does rebuild when the flag is set). -/
theorem dirty_flag_monotone :
    (∀ s : ForwardState, s.setDirty false = s) ∧
    (∀ s : ForwardState, (s.setDirty true).dirty = true) ∧
    (∀ (s : ForwardState) (v : ℚ), (s.setEps v).dirty = s.dirty) ∧
    (∀ (s : ForwardState) (v : ℕ), (s.setMaxIter v).dirty = s.dirty) ∧
    (∀ (s : ForwardState) (n : String), (s.select n).dirty = s.dirty) ∧
    (∀ (s : ForwardState) (n : ℕ), (s.setNbCores n).dirty = s.dirty) ∧
    (∀ (s : ForwardState) (m : ModelState), s.dirty = true →
      (s.run m).2.1 = true ∧ ((s.run m).1).dirty = false) := by
  refine ⟨fun s => rfl, fun s => rfl, fun s v => rfl, fun s v => rfl,
    fun s n => rfl, fun s n => rfl, fun s m hd => ?_⟩
  have hreb : needRebuild s m = true := by
    simp [needRebuild, hd]
  constructor <;> simp [ForwardState.run, hreb]

/-- C10 witness: a fresh solver marked dirty stays dirty through
`setEps`, and its next `run` on the sample model rebuilds and clears
the flag. -/
theorem dirty_flag_monotone_witness :
    ((ForwardState.new.setDirty true).setEps (1 / 10 ^ 6)).dirty =
      (ForwardState.new.setDirty true).dirty ∧
    ((ForwardState.new.setDirty true).run sampleModelA).2.1 = true :=
  ⟨dirty_flag_monotone.2.2.1 (ForwardState.new.setDirty true) (1 / 10 ^ 6),
   (dirty_flag_monotone.2.2.2.2.2.2 (ForwardState.new.setDirty true)
      sampleModelA rfl).1⟩

/-- C8 counterexample: the default D± offset of
`Surface.displPlus` / `Surface.displMinus` (`delta: number=1e-7` in
`surface.ts`) is **not** the value 1e-8 claimed for both — it differs
from the `Solution.delta` default. -/
theorem surface_default_delta_ne_1e8 :
    surfaceDisplDefaultDelta ≠ solutionDefaultDelta ∧
    surfaceDisplDefaultDelta ≠ 1 / 10 ^ 8 := by
  constructor <;>
    norm_num [surfaceDisplDefaultDelta, solutionDefaultDelta]

/-- C8 (amended): when the caller does not supply δ, `Solution`'s D±
threshold defaults to 1e-8 while `Surface.displPlus` / `displMinus`
default to δ = 1e-7; the two defaults are not the same value, and the
surface-side default call evaluates the field at offset 1e-7. -/
theorem default_delta_values :
    surfaceDisplDefaultDelta = 1 / 10 ^ 7 ∧
    solutionDefaultDelta = 1 / 10 ^ 8 ∧
    surfaceDisplDefaultDelta ≠ solutionDefaultDelta ∧
    (∀ (S : SurfaceModel) (loc atT : Bool),
      S.displPlusDefault loc atT = S.displPlus loc atT (1 / 10 ^ 7) ∧
      S.displMinusDefault loc atT = S.displMinus loc atT (1 / 10 ^ 7)) := by
  refine ⟨rfl, rfl, ?_, fun S loc atT => ⟨rfl, rfl⟩⟩
  norm_num [surfaceDisplDefaultDelta, solutionDefaultDelta]

/-- C8 witness: the default-δ call on the sample surface agrees with the
explicit δ = 1e-7 call. -/
theorem default_delta_values_witness :
    sampleSurface.displPlusDefault true true =
      sampleSurface.displPlus true true (1 / 10 ^ 7) :=
  ((default_delta_values.2.2.2 sampleSurface true true).1)

/-- C4: `Forward.run` rebuilds the influence matrix exactly when the
dirty flag is set, no matrix is cached yet, or the cached metadata
(triangle count, per-triangle BC types, Poisson ratio) differs from the
model's; and a second run on a model with the same metadata — only BC
values, remotes, Young's modulus or density changed — reuses the matrix
of the first run unchanged while recomputing the right-hand side. -/
theorem forward_rebuild_iff (s : ForwardState) (m mNew : ModelState)
    (hkey : rebuildKey mNew = rebuildKey m) :
    ((s.run m).2.1 = true ↔
      (s.dirty = true ∨ s.cache = none ∨
        ∃ n bts nu A, s.cache = some ((n, bts, nu), A) ∧
          (n ≠ m.nbTriangles ∨ bts ≠ m.bcs.map bcKinds3 ∨
           nu ≠ m.poisson))) ∧
    (s.run m).2.2.2 = computeRhs m ∧
    (((s.run m).1).run mNew).2.1 = false ∧
    (((s.run m).1).run mNew).2.2.1 = (s.run m).2.2.1 ∧
    (((s.run m).1).run mNew).2.2.2 = computeRhs mNew := by
  have hchar : needRebuild s m = true ↔
      (s.dirty = true ∨ s.cache = none ∨
        ∃ n bts nu A, s.cache = some ((n, bts, nu), A) ∧
          (n ≠ m.nbTriangles ∨ bts ≠ m.bcs.map bcKinds3 ∨
           nu ≠ m.poisson)) := by
    cases hd : s.dirty
    · rcases hc : s.cache with _ | ⟨⟨n, bts, nu⟩, A⟩
      · simp [needRebuild, hd, hc]
      · simp only [needRebuild, hd, hc, Bool.false_or, decide_eq_true_eq]
        constructor
        · intro hne
          refine Or.inr (Or.inr ⟨n, bts, nu, A, rfl, ?_⟩)
          by_contra hcon
          push_neg at hcon
          exact hne (by simp [rebuildKey, hcon.1, hcon.2.1, hcon.2.2])
        · rintro (h | h | ⟨n', bts', nu', A', he, hne⟩)
          · exact absurd h (by simp)
          · exact Option.noConfusion h
          · obtain ⟨⟨hn, hb, hnu⟩, _⟩ :
                (n = n' ∧ bts = bts' ∧ nu = nu') ∧ A = A' := by
              simpa [Prod.mk.injEq] using he
            subst hn; subst hb; subst hnu
            intro hEq
            simp only [rebuildKey, Prod.mk.injEq] at hEq
            rcases hne with h | h | h
            · exact h hEq.1
            · exact h hEq.2.1
            · exact h hEq.2.2
    · simp [needRebuild, hd]
  have hflag : (s.run m).2.1 = needRebuild s m := by
    by_cases hreb : needRebuild s m = true
    · simp [ForwardState.run, hreb]
    · have hreb' : needRebuild s m = false := by
        revert hreb; cases needRebuild s m <;> simp
      rcases hc : s.cache with _ | ⟨key, A⟩
      · simp [needRebuild, hc] at hreb'
      · simp [ForwardState.run, hreb', hc]
  have hpost : ((s.run m).1).dirty = false ∧
      ((s.run m).1).cache = some (rebuildKey m, (s.run m).2.2.1) ∧
      (s.run m).2.2.2 = computeRhs m := by
    by_cases hreb : needRebuild s m = true
    · simp [ForwardState.run, hreb]
    · have hreb' : needRebuild s m = false := by
        revert hreb; cases needRebuild s m <;> simp
      rcases hc : s.cache with _ | ⟨key, A⟩
      · simp [needRebuild, hc] at hreb'
      · have hd : s.dirty = false := by
          cases hdd : s.dirty
          · rfl
          · exfalso
            have : needRebuild s m = true := by simp [needRebuild, hdd]
            rw [this] at hreb'
            exact Bool.noConfusion hreb'
        have hkeq : key = rebuildKey m := by
          by_contra hne
          have : needRebuild s m = true := by
            simp [needRebuild, hc, hd, hne]
          rw [this] at hreb'
          exact Bool.noConfusion hreb'
        subst hkeq
        simp [ForwardState.run, hreb', hc, hd]
  obtain ⟨hd1, hc1, hrhs1⟩ := hpost
  rcases hrun : s.run m with ⟨s1, reb1, A1, rhs1⟩
  rw [hrun] at hflag hd1 hc1 hrhs1
  simp only at hflag hd1 hc1 hrhs1 ⊢
  have hnr2 : needRebuild s1 mNew = false := by
    simp [needRebuild, hd1, hc1, hkey]
  have hsnd : s1.run mNew = (s1, false, A1, computeRhs mNew) := by
    simp [ForwardState.run, hnr2, hc1]
  refine ⟨?_, hrhs1, by rw [hsnd], by rw [hsnd], by rw [hsnd]⟩
  rw [hflag]
  exact hchar

/-- C4 witness: after a first run on the sample model, changing only
the Young's modulus, the density and a remote (`sampleModelB`) does not
trigger a rebuild and reuses the same matrix. -/
theorem forward_rebuild_iff_witness :
    rebuildKey sampleModelB = rebuildKey sampleModelA ∧
    (((ForwardState.new.run sampleModelA).1).run sampleModelB).2.1 =
      false ∧
    (((ForwardState.new.run sampleModelA).1).run sampleModelB).2.2.1 =
      (ForwardState.new.run sampleModelA).2.2.1 :=
  ⟨rfl,
   (forward_rebuild_iff ForwardState.new sampleModelA sampleModelB
      rfl).2.2.1,
   (forward_rebuild_iff ForwardState.new sampleModelA sampleModelB
      rfl).2.2.2.1⟩

/-- Loop invariant of `runLoop`: the sweep count never exceeds the fuel
budget, every iterate visited before the returned count failed the
tolerance test, and the result either passes the test or is returned on
fuel exhaustion as a best-so-far iterate (no worse than `best` and than
any iterate reachable within the budget). -/
theorem runLoop_spec {α : Type} (step : α → α) (resid : α → ℚ) (tol : ℚ) :
    ∀ (fuel k : ℕ) (x best : α), resid best ≤ resid x →
      (runLoop step resid tol fuel k x best).2 ≤ k + fuel ∧
      (∀ j : ℕ, j + k < (runLoop step resid tol fuel k x best).2 →
        ¬ resid (step^[j] x) ≤ tol) ∧
      (resid (runLoop step resid tol fuel k x best).1 ≤ tol ∨
        ((runLoop step resid tol fuel k x best).2 = k + fuel ∧
         resid (runLoop step resid tol fuel k x best).1 ≤ resid best ∧
         ∀ j ≤ fuel,
           resid (runLoop step resid tol fuel k x best).1 ≤
             resid (step^[j] x)))
  | 0, k, x, best, hbx => by
      refine ⟨by simp [runLoop], ?_,
        Or.inr ⟨by simp [runLoop], by simp [runLoop], ?_⟩⟩
      · intro j hj
        simp only [runLoop] at hj
        omega
      · intro j hj
        interval_cases j
        simpa [runLoop] using hbx
  | fuel + 1, k, x, best, hbx => by
      by_cases hx : resid x ≤ tol
      · refine ⟨?_, ?_, Or.inl ?_⟩
        · simp only [runLoop, if_pos hx]
          omega
        · intro j hj
          simp only [runLoop, if_pos hx] at hj
          omega
        · simpa only [runLoop, if_pos hx] using hx
      · have hunfold : runLoop step resid tol (fuel + 1) k x best =
            runLoop step resid tol fuel (k + 1) (step x)
              (if resid (step x) < resid best then step x else best) := by
          simp [runLoop, hx]
        have hpre : resid (if resid (step x) < resid best
            then step x else best) ≤ resid (step x) := by
          split_ifs with hlt
          · exact le_refl _
          · exact not_lt.mp hlt
        have hbb : resid (if resid (step x) < resid best
            then step x else best) ≤ resid best := by
          split_ifs with hlt
          · exact le_of_lt hlt
          · exact le_refl _
        obtain ⟨ih1, ih2, ih3⟩ := runLoop_spec step resid tol fuel (k + 1)
          (step x) (if resid (step x) < resid best then step x else best)
          hpre
        rw [hunfold]
        refine ⟨by omega, ?_, ?_⟩
        · intro j hj
          cases j with
          | zero => simpa using hx
          | succ j' =>
              rw [Function.iterate_succ_apply]
              exact ih2 j' (by omega)
        · rcases ih3 with h | ⟨hcount, hbestle, hall⟩
          · exact Or.inl h
          · refine Or.inr ⟨by omega, le_trans hbestle hbb, ?_⟩
            intro j hj
            cases j with
            | zero =>
                simpa using le_trans (le_trans hbestle hbb) hbx
            | succ j' =>
                rw [Function.iterate_succ_apply]
                exact hall j' (by omega)

/-- C5: the iterative solver's run terminates with at most K_max sweeps:
it stops at the first sweep whose relative residual is at most ε (all
earlier iterates fail the test), and on exhausting K_max it returns the
best-so-far iterate (whose residual is no worse than any iterate of the
trajectory); the defaults are ε = 1e-9 and K_max = 200. -/
theorem solver_run_terminates {α : Type} (step : α → α) (resid : α → ℚ)
    (eps : ℚ) (kmax : ℕ) (x0 : α) :
    (solverRun step resid eps kmax x0).2 ≤ kmax ∧
    (∀ j : ℕ, j < (solverRun step resid eps kmax x0).2 →
      ¬ resid (step^[j] x0) ≤ eps * resid x0) ∧
    (resid (solverRun step resid eps kmax x0).1 ≤ eps * resid x0 ∨
      ((solverRun step resid eps kmax x0).2 = kmax ∧
       ∀ j ≤ kmax,
         resid (solverRun step resid eps kmax x0).1 ≤
           resid (step^[j] x0))) ∧
    defaultEps = 1 / 10 ^ 9 ∧ defaultMaxIter = 200 := by
  obtain ⟨h1, h2, h3⟩ :=
    runLoop_spec step resid (eps * resid x0) kmax 0 x0 x0 (le_refl _)
  refine ⟨by simpa [solverRun] using h1, ?_, ?_, rfl, rfl⟩
  · intro j hj
    refine h2 j ?_
    simp only [solverRun] at hj
    omega
  · rcases h3 with h | ⟨hc, _hb, hall⟩
    · exact Or.inl (by simpa [solverRun] using h)
    · refine Or.inr ⟨?_, ?_⟩
      · simp only [solverRun] at hc ⊢
        omega
      · simpa [solverRun] using hall

/-- C5 witness: halving from 1 with tolerance 0 and K_max = 2 performs
at most 2 sweeps. -/
theorem solver_run_terminates_witness :
    (solverRun (fun q : ℚ => q / 2) id 0 2 1).2 ≤ 2 :=
  (solver_run_terminates (fun q : ℚ => q / 2) id 0 2 1).1

/-- At triangles, the decomposition error list is the per-triangle core
error. -/
theorem decompErr_atTriangles (S : SurfaceModel) (loc : Bool) (d : ℚ) :
    decompErr S loc true d = S.triangles.map (decompCore loc d) := by
  simp only [decompErr, SurfaceModel.displPlus, SurfaceModel.displMinus,
    SurfaceModel.displ, stage2, if_true]
  rw [zipWith3v_map]
  rfl

/-- At vertices, the decomposition error list is the weighted
interpolation of the per-triangle core errors. -/
theorem decompErr_atVertices (S : SurfaceModel) (loc : Bool) (d : ℚ) :
    decompErr S loc false d =
      S.vertexWeights.map
        (fun ws => wsum ws (S.triangles.map (decompCore loc d))) := by
  simp only [decompErr, SurfaceModel.displPlus, SurfaceModel.displMinus,
    SurfaceModel.displ, stage2, Bool.false_eq_true, if_false]
  rw [zipWith3v_map]
  exact congrArg (fun f => List.map f S.vertexWeights)
    (funext fun ws => wsum_map_sub3 _ _ _ ws S.triangles)

/-- Bound on the per-triangle core error: the D± evaluations differ
from the stored Burgers vector only by the variation of the continuous
part across the offset, at most 2Lδ before rotation and 6Lδ after. -/
theorem decompCore_bound (loc : Bool) (d L : ℚ) (t : TriModel)
    (hd : 0 < d) (hL : 0 ≤ L)
    (hLip : ∀ s s' : ℚ, compAbsLe (vsub (t.g s) (t.g s')) (L * |s - s'|))
    (hR : entriesLeOne t.R) :
    compAbsLe (decompCore loc d t) (6 * L * d) := by
  have hinner : vsub (vsub (evalSide t d) (evalSide t (-d))) t.b =
      vsub (t.g d) (t.g (-d)) := by
    simp only [evalSide, if_pos hd, if_neg (by linarith : ¬(0 : ℚ) < -d)]
    simp only [vadd, vsub, vzero, Vec3.mk.injEq]
    refine ⟨by ring, by ring, by ring⟩
  have hlips : compAbsLe (vsub (t.g d) (t.g (-d))) (2 * L * d) := by
    have h := hLip d (-d)
    have habs : |d - -d| = 2 * d := by
      rw [abs_of_pos (by linarith : (0 : ℚ) < d - -d)]
      ring
    rw [habs] at h
    have : L * (2 * d) = 2 * L * d := by ring
    rwa [this] at h
  cases loc with
  | true =>
      have hcore : decompCore true d t = vsub (t.g d) (t.g (-d)) := by
        simp only [decompCore, rotIf, if_true]
        exact hinner
      rw [hcore]
      refine compAbsLe_mono hlips ?_
      nlinarith [mul_nonneg hL hd.le]
  | false =>
      have hcore : decompCore false d t =
          matApp t.R (vsub (t.g d) (t.g (-d))) := by
        simp only [decompCore, rotIf, Bool.false_eq_true, if_false]
        rw [← matApp_vsub, ← matApp_vsub, hinner]
      rw [hcore]
      refine compAbsLe_mono (matApp_bound t.R _ _ hR hlips) ?_
      nlinarith

/-- C1: for every surface of a solved model and both settings of the
local / atTriangles flags, the reported burgersPlus and burgersMinus
arrays have the same shape as the burgers array and their pointwise
difference equals the burgers values within a tolerance of order δ
(explicitly 6·L·δ for a continuous part that is L-Lipschitz across the
element, rotations having entries ≤ 1 and vertex interpolation being a
convex combination). -/
theorem burgers_decomposition (S : SurfaceModel) (L d : ℚ)
    (hd : 0 < d) (hL : 0 ≤ L)
    (hLip : ∀ t ∈ S.triangles, ∀ s s' : ℚ,
      compAbsLe (vsub (t.g s) (t.g s')) (L * |s - s'|))
    (hRot : ∀ t ∈ S.triangles, entriesLeOne t.R)
    (hW : ∀ ws ∈ S.vertexWeights,
      ws.length = S.triangles.length ∧ (∀ w ∈ ws, 0 ≤ w) ∧ ws.sum = 1) :
    ∀ loc atT : Bool,
      (S.displPlus loc atT d).length = (S.displ loc atT).length ∧
      (S.displMinus loc atT d).length = (S.displ loc atT).length ∧
      ∀ e ∈ decompErr S loc atT d, compAbsLe e (6 * L * d) := by
  intro loc atT
  have hcoreB : ∀ t ∈ S.triangles,
      compAbsLe (decompCore loc d t) (6 * L * d) :=
    fun t ht => decompCore_bound loc d L t hd hL (hLip t ht) (hRot t ht)
  refine ⟨?_, ?_, ?_⟩
  · cases atT <;>
      simp [SurfaceModel.displPlus, SurfaceModel.displ, stage2]
  · cases atT <;>
      simp [SurfaceModel.displMinus, SurfaceModel.displ, stage2]
  · cases atT with
    | true =>
        rw [decompErr_atTriangles]
        intro e he
        obtain ⟨t, ht, rfl⟩ := List.mem_map.mp he
        exact hcoreB t ht
    | false =>
        rw [decompErr_atVertices]
        intro e he
        obtain ⟨ws, hws, rfl⟩ := List.mem_map.mp he
        obtain ⟨hlen, hpos, hsum⟩ := hW ws hws
        have hentries : ∀ v ∈ S.triangles.map (decompCore loc d),
            compAbsLe v (6 * L * d) := by
          intro v hv
          obtain ⟨t, ht, rfl⟩ := List.mem_map.mp hv
          exact hcoreB t ht
        have hb := wsum_bound ws (S.triangles.map (decompCore loc d))
          (6 * L * d) (by simpa using hlen) hpos hentries
        rwa [hsum, one_mul] at hb

/-- C1 witness: the one-triangle sample surface with constant continuous
part (L = 0) at δ = 1, in the global frame and interpolated to the
vertex: the decomposition error is exactly bounded by 0. -/
theorem burgers_decomposition_witness :
    (0 : ℚ) < 1 ∧
    ∀ e ∈ decompErr sampleSurface false false 1,
      compAbsLe e (6 * 0 * 1) :=
  ⟨by norm_num,
   (burgers_decomposition sampleSurface 0 1 (by norm_num) (le_refl 0)
      (by
        intro t ht s s'
        simp only [sampleSurface, List.mem_singleton] at ht
        subst ht
        simp [sampleTri, vsub, vzero, compAbsLe])
      (by
        intro t ht
        simp only [sampleSurface, List.mem_singleton] at ht
        subst ht
        norm_num [sampleTri, entriesLeOne, matId])
      (by
        intro ws hws
        simp only [sampleSurface, List.mem_singleton] at hws
        subst hws
        refine ⟨by simp [sampleSurface], ?_, by simp⟩
        intro w hw
        simp only [List.mem_singleton] at hw
        subst hw
        norm_num)
      false false).2.2⟩
